import Mathlib

/-!
Verification of the damped-viewport core of `life_display.py`.

The program tracks the bounding rectangle of a set of live cells with four
hysteresis-damped scalar bounds (class `Margin`, combined by `MarginFrame`)
and maps the rectangle to pixel coordinates when drawing.  All stateful
Python methods are embedded as explicit state-passing functions: a method
that mutates `self` and returns a value becomes a Lean function returning
the pair (returned value, updated state).
-/

/-- Embeds class `Margin` of `life_display.py`: a fixed `margin` and an
optional stored `value` (Python `self.value`, initially `None`). -/
structure Margin where
  margin : Int
  value : Option Int
deriving Repr, DecidableEq

/-- Embeds `Margin.__init__(margin)`: stores the margin, `value = None`. -/
def Margin.mkInit (margin : Int) : Margin := ⟨margin, none⟩

/-- Embeds `Margin.set_min(new_value)`:
`self.value = (new_value if self.value is None or new_value < self.value else
self.value + 1 if new_value > self.value + self.margin else self.value)`,
then `return self.value`.  Result is (returned value, updated state). -/
def Margin.set_min (s : Margin) (new_value : Int) : Int × Margin :=
  let v : Int :=
    match s.value with
    | none => new_value
    | some value =>
      if new_value < value then new_value
      else if new_value > value + s.margin then value + 1
      else value
  (v, { s with value := some v })

/-- Embeds `Margin.set_max(new_value)`:
`self.value = (new_value if self.value is None or new_value > self.value else
self.value - 1 if new_value < self.value - self.margin else self.value)`,
then `return self.value`. -/
def Margin.set_max (s : Margin) (new_value : Int) : Int × Margin :=
  let v : Int :=
    match s.value with
    | none => new_value
    | some value =>
      if new_value > value then new_value
      else if new_value < value - s.margin then value - 1
      else value
  (v, { s with value := some v })

/-- Python `min` over a list of integers: `None` on the empty list (where
CPython raises `ValueError`), otherwise the least element. -/
def pyMin : List Int → Option Int
  | [] => none
  | x :: xs => some (xs.foldl min x)

/-- Python `max` over a list of integers, same convention as `pyMin`. -/
def pyMax : List Int → Option Int
  | [] => none
  | x :: xs => some (xs.foldl max x)

/-- The one failure the viewport computation can produce: `MarginFrame.set`
on an empty cell set (Python's `min`/`max` raise on an empty sequence). -/
inductive Err where
  | invalidInput
deriving Repr, DecidableEq

/-- Embeds class `MarginFrame`: four `Margin` states, one per edge. -/
structure MarginFrame where
  x_min : Margin
  y_min : Margin
  x_max : Margin
  y_max : Margin
deriving Repr, DecidableEq

/-- Embeds `MarginFrame.__init__(margin)`: four fresh `Margin(margin)`. -/
def MarginFrame.mkInit (margin : Int) : MarginFrame :=
  ⟨Margin.mkInit margin, Margin.mkInit margin,
   Margin.mkInit margin, Margin.mkInit margin⟩

/-- A rectangle `(x_min, y_min, x_max, y_max)` as returned by
`MarginFrame.set`. -/
abbrev Rect := Int × Int × Int × Int

/-- Embeds `MarginFrame.set(dots)`: returns
`(set_min(min xs), set_min(min ys), set_max(max xs + 1), set_max(max ys + 1))`.
In Python, `min([])` raises before any of the four `Margin` objects is
touched, so a failing call leaves the state exactly as it was; here failure
is the `Except.error` branch, which carries no updated state. -/
def MarginFrame.set (s : MarginFrame) (dots : List (Int × Int)) :
    Except Err (Rect × MarginFrame) :=
  match pyMin (dots.map Prod.fst), pyMin (dots.map Prod.snd),
        pyMax (dots.map Prod.fst), pyMax (dots.map Prod.snd) with
  | some mx, some my, some Mx, some My =>
    let rx0 := s.x_min.set_min mx
    let ry0 := s.y_min.set_min my
    let rx1 := s.x_max.set_max (Mx + 1)
    let ry1 := s.y_max.set_max (My + 1)
    Except.ok ((rx0.1, ry0.1, rx1.1, ry1.1), ⟨rx0.2, ry0.2, rx1.2, ry1.2⟩)
  | _, _, _, _ => Except.error Err.invalidInput

/-- C1 -- `Margin.set_min` follows exactly the three-case law: absent value
or lower candidate snaps to the candidate; a candidate more than `margin`
above the value relaxes the value by one; otherwise the value is unchanged.
In every case the returned value is the stored value after the call. -/
theorem set_min_three_case_law (m c : Int) (v : Option Int) :
    (v = none → Margin.set_min ⟨m, v⟩ c = (c, ⟨m, some c⟩)) ∧
    (∀ w, v = some w → c < w → Margin.set_min ⟨m, v⟩ c = (c, ⟨m, some c⟩)) ∧
    (∀ w, v = some w → ¬ c < w → c > w + m →
      Margin.set_min ⟨m, v⟩ c = (w + 1, ⟨m, some (w + 1)⟩)) ∧
    (∀ w, v = some w → ¬ c < w → ¬ c > w + m →
      Margin.set_min ⟨m, v⟩ c = (w, ⟨m, some w⟩)) := by
  refine ⟨?_, ?_, ?_, ?_⟩
  · rintro rfl; rfl
  · rintro w rfl hlt
    simp [Margin.set_min, if_pos hlt]
  · rintro w rfl hlt hgt
    simp [Margin.set_min, if_neg hlt, if_pos hgt]
  · rintro w rfl hlt hgt
    simp [Margin.set_min, if_neg hlt, if_neg hgt]

/-- Witness for C1: the spec's concrete scenario with margin 10 exercises
all three cases (snap when absent, snap down, relax by one, absorb). -/
theorem set_min_three_case_law_witness :
    Margin.set_min ⟨10, none⟩ 5 = (5, ⟨10, some 5⟩) ∧
    Margin.set_min ⟨10, some 5⟩ 2 = (2, ⟨10, some 2⟩) ∧
    Margin.set_min ⟨10, some 5⟩ 20 = (6, ⟨10, some 6⟩) ∧
    Margin.set_min ⟨10, some 5⟩ 12 = (5, ⟨10, some 5⟩) :=
  ⟨(set_min_three_case_law 10 5 none).1 rfl,
   (set_min_three_case_law 10 2 (some 5)).2.1 5 rfl (by decide),
   (set_min_three_case_law 10 20 (some 5)).2.2.1 5 rfl (by decide) (by decide),
   (set_min_three_case_law 10 12 (some 5)).2.2.2 5 rfl (by decide) (by decide)⟩

/-- The fold computing Python `min` never exceeds its seed. -/
theorem foldl_min_le_seed (xs : List Int) (x : Int) : xs.foldl min x ≤ x := by
  induction xs generalizing x with
  | nil => simp
  | cons y ys ih => exact le_trans (ih (min x y)) (min_le_left x y)

/-- The fold computing Python `min` never exceeds a list element. -/
theorem foldl_min_le_mem (xs : List Int) (x y : Int) (hy : y ∈ xs) :
    xs.foldl min x ≤ y := by
  induction xs generalizing x with
  | nil => cases hy
  | cons z zs ih =>
    rcases List.mem_cons.mp hy with rfl | hy
    · exact le_trans (foldl_min_le_seed zs (min x y)) (min_le_right x y)
    · exact ih (min x z) hy

/-- The fold computing Python `min` is the seed or a list element. -/
theorem foldl_min_mem (xs : List Int) (x : Int) :
    xs.foldl min x = x ∨ xs.foldl min x ∈ xs := by
  induction xs generalizing x with
  | nil => exact Or.inl rfl
  | cons y ys ih =>
    rcases ih (min x y) with h | h
    · rcases min_choice x y with h2 | h2
      · exact Or.inl (h.trans h2)
      · exact Or.inr (by rw [List.foldl_cons, h, h2]; exact List.mem_cons_self y ys)
    · exact Or.inr (List.mem_cons_of_mem y h)

/-- The fold computing Python `max` is at least its seed. -/
theorem foldl_max_ge_seed (xs : List Int) (x : Int) : x ≤ xs.foldl max x := by
  induction xs generalizing x with
  | nil => simp
  | cons y ys ih => exact le_trans (le_max_left x y) (ih (max x y))

/-- The fold computing Python `max` is at least every list element. -/
theorem foldl_max_ge_mem (xs : List Int) (x y : Int) (hy : y ∈ xs) :
    y ≤ xs.foldl max x := by
  induction xs generalizing x with
  | nil => cases hy
  | cons z zs ih =>
    rcases List.mem_cons.mp hy with rfl | hy
    · exact le_trans (le_max_right x y) (foldl_max_ge_seed zs (max x y))
    · exact ih (max x z) hy

/-- The fold computing Python `max` is the seed or a list element. -/
theorem foldl_max_mem (xs : List Int) (x : Int) :
    xs.foldl max x = x ∨ xs.foldl max x ∈ xs := by
  induction xs generalizing x with
  | nil => exact Or.inl rfl
  | cons y ys ih =>
    rcases ih (max x y) with h | h
    · rcases max_choice x y with h2 | h2
      · exact Or.inl (h.trans h2)
      · exact Or.inr (by rw [List.foldl_cons, h, h2]; exact List.mem_cons_self y ys)
    · exact Or.inr (List.mem_cons_of_mem y h)

/-- A successful `pyMin` result bounds every list element from below. -/
theorem pyMin_le (l : List Int) (a : Int) (h : pyMin l = some a) :
    ∀ y ∈ l, a ≤ y := by
  cases l with
  | nil => cases h
  | cons x xs =>
    intro y hy
    obtain rfl : xs.foldl min x = a := by simpa [pyMin] using h
    rcases List.mem_cons.mp hy with rfl | hy
    · exact foldl_min_le_seed xs y
    · exact foldl_min_le_mem xs x y hy

/-- A successful `pyMin` result is an element of the list. -/
theorem pyMin_mem (l : List Int) (a : Int) (h : pyMin l = some a) : a ∈ l := by
  cases l with
  | nil => cases h
  | cons x xs =>
    obtain rfl : xs.foldl min x = a := by simpa [pyMin] using h
    rcases foldl_min_mem xs x with h2 | h2
    · rw [h2]; exact List.mem_cons_self x xs
    · exact List.mem_cons_of_mem x h2

/-- A successful `pyMax` result bounds every list element from above. -/
theorem pyMax_ge (l : List Int) (a : Int) (h : pyMax l = some a) :
    ∀ y ∈ l, y ≤ a := by
  cases l with
  | nil => cases h
  | cons x xs =>
    intro y hy
    obtain rfl : xs.foldl max x = a := by simpa [pyMax] using h
    rcases List.mem_cons.mp hy with rfl | hy
    · exact foldl_max_ge_seed xs y
    · exact foldl_max_ge_mem xs x y hy

/-- A successful `pyMax` result is an element of the list. -/
theorem pyMax_mem (l : List Int) (a : Int) (h : pyMax l = some a) : a ∈ l := by
  cases l with
  | nil => cases h
  | cons x xs =>
    obtain rfl : xs.foldl max x = a := by simpa [pyMax] using h
    rcases foldl_max_mem xs x with h2 | h2
    · rw [h2]; exact List.mem_cons_self x xs
    · exact List.mem_cons_of_mem x h2

/-- With a non-negative margin, `set_min` never returns above its candidate. -/
theorem set_min_fst_le (s : Margin) (c : Int) (hm : 0 ≤ s.margin) :
    (s.set_min c).1 ≤ c := by
  obtain ⟨m, v⟩ := s
  cases v with
  | none => simp [Margin.set_min]
  | some w =>
    simp only [Margin.set_min] at hm ⊢
    split_ifs <;> omega

/-- With a non-negative margin, `set_max` never returns below its candidate. -/
theorem set_max_fst_ge (s : Margin) (c : Int) (hm : 0 ≤ s.margin) :
    c ≤ (s.set_max c).1 := by
  obtain ⟨m, v⟩ := s
  cases v with
  | none => simp [Margin.set_max]
  | some w =>
    simp only [Margin.set_max] at hm ⊢
    split_ifs <;> omega

/-- C2 -- `set_min` never returns a value above its candidate and `set_max`
never one below its candidate (margins non-negative, as in the program where
all margins are 10); consequently a successful `MarginFrame.set` returns a
rectangle that contains every cell of that call's set:
`x_min ≤ x < x_max` and `y_min ≤ y < y_max`. -/
theorem set_results_bound_candidates_and_contain (s : Margin) (c : Int)
    (t : MarginFrame) (dots : List (Int × Int)) (rect : Rect) (t' : MarginFrame)
    (hs : 0 ≤ s.margin)
    (h0 : 0 ≤ t.x_min.margin) (h1 : 0 ≤ t.y_min.margin)
    (h2 : 0 ≤ t.x_max.margin) (h3 : 0 ≤ t.y_max.margin)
    (hset : t.set dots = Except.ok (rect, t')) :
    (s.set_min c).1 ≤ c ∧ c ≤ (s.set_max c).1 ∧
    ∀ p ∈ dots,
      rect.1 ≤ p.1 ∧ p.1 < rect.2.2.1 ∧ rect.2.1 ≤ p.2 ∧ p.2 < rect.2.2.2 := by
  refine ⟨set_min_fst_le s c hs, set_max_fst_ge s c hs, ?_⟩
  rw [MarginFrame.set] at hset
  split at hset
  next mx my Mx My hmx hmy hMx hMy =>
    simp only [Except.ok.injEq, Prod.mk.injEq] at hset
    obtain ⟨hrect, -⟩ := hset
    subst hrect
    intro p hp
    have hx1 : mx ≤ p.1 := pyMin_le _ mx hmx p.1 (List.mem_map_of_mem Prod.fst hp)
    have hx2 : p.1 ≤ Mx := pyMax_ge _ Mx hMx p.1 (List.mem_map_of_mem Prod.fst hp)
    have hy1 : my ≤ p.2 := pyMin_le _ my hmy p.2 (List.mem_map_of_mem Prod.snd hp)
    have hy2 : p.2 ≤ My := pyMax_ge _ My hMy p.2 (List.mem_map_of_mem Prod.snd hp)
    have a1 := set_min_fst_le t.x_min mx h0
    have a2 := set_min_fst_le t.y_min my h1
    have a3 := set_max_fst_ge t.x_max (Mx + 1) h2
    have a4 := set_max_fst_ge t.y_max (My + 1) h3
    dsimp only
    omega
  next => cases hset

/-- Witness for C2: a fresh frame with margin 10 on cells (0,0), (3,4)
returns the rectangle (0,0,4,5); the cell (3,4) lies inside it, and a min
bound at value 5 with candidate 20 answers at most 20, the max bound at
least 20. -/
theorem set_results_bound_candidates_and_contain_witness :
    ((Margin.mk 10 (some 5)).set_min 20).1 ≤ 20 ∧
    (20:Int) ≤ ((Margin.mk 10 (some 5)).set_max 20).1 ∧
    ((0:Int) ≤ (3:Int) ∧ (3:Int) < 4 ∧ (0:Int) ≤ (4:Int) ∧ (4:Int) < 5) :=
  have h := set_results_bound_candidates_and_contain
    (Margin.mk 10 (some 5)) 20 (MarginFrame.mkInit 10) [(0,0), (3,4)]
    (0,0,4,5) ⟨⟨10, some 0⟩, ⟨10, some 0⟩, ⟨10, some 4⟩, ⟨10, some 5⟩⟩
    (by decide) (by decide) (by decide) (by decide) (by decide) rfl
  ⟨h.1, h.2.1, h.2.2 (3,4) (by decide)⟩

/-- C3 -- `MarginFrame.set` on the empty cell set fails for every state:
Python's `min([])` raises (the spec's InvalidInput condition) before any of
the four `Margin` objects is read or written, so the failing call produces
no updated state and the caller's four bounds are exactly as before. -/
theorem set_empty_fails_without_mutation (s : MarginFrame) :
    s.set [] = Except.error Err.invalidInput := rfl

/-- The state after `n` successive `set_min` calls with a fixed candidate. -/
def Margin.iterMin (s : Margin) (c : Int) : Nat → Margin
  | 0 => s
  | n + 1 => ((s.iterMin c n).set_min c).2

/-- Closed form for repeated `set_min` with fixed candidate `c` starting
from value `v` with `v + m < c` and `0 ≤ m`: after `n` calls the stored
value is `min (v + n) (c - m)`. -/
theorem iterMin_closed_form (m v c : Int) (hm : 0 ≤ m) (h : v + m < c) (n : Nat) :
    Margin.iterMin ⟨m, some v⟩ c n = ⟨m, some (min (v + n) (c - m))⟩ := by
  induction n with
  | zero =>
    have hv : min (v + ((0:Nat):Int)) (c - m) = v := by push_cast; omega
    rw [Margin.iterMin, hv]
  | succ n ih =>
    rw [Margin.iterMin, ih]
    simp only [Margin.set_min, Margin.mk.injEq, Option.some.injEq, true_and]
    push_cast
    split_ifs <;> omega

/-- Counterexample for C4: margin 10, stored value 5, candidate 20
(which exceeds 5 + 10).  After 15 calls the stored value is 10 = 20 - 10;
the next call still returns 10, so repeated calls do not raise the value
until it reaches the candidate 20 -- it stops 10 short of it. -/
theorem relax_never_reaches_candidate_cex :
    (Margin.iterMin ⟨10, some 5⟩ 20 15).value = some 10 ∧
    ((Margin.iterMin ⟨10, some 5⟩ 20 15).set_min 20).1 = 10 ∧
    ¬ (10:Int) = 20 := by
  decide

/-- C4 (amended) -- with margin m ≥ 0, stored value v and candidate
c > v + m, `set_min` returns exactly v + 1 regardless of how large c is, and
repeated calls with the same c raise the stored value by exactly 1 per call
until it reaches c - m, where it stays (it reaches c itself only if m = 0):
after n calls the value is min (v + n) (c - m). -/
theorem relax_one_per_call_up_to_margin (m v c : Int)
    (hm : 0 ≤ m) (h : c > v + m) :
    ((Margin.mk m (some v)).set_min c).1 = v + 1 ∧
    ∀ n : Nat, Margin.iterMin ⟨m, some v⟩ c n = ⟨m, some (min (v + n) (c - m))⟩ := by
  constructor
  · simp only [Margin.set_min]
    rw [if_neg (by omega), if_pos (by omega)]
  · exact iterMin_closed_form m v c hm h

/-- Witness for C4 (amended) at margin 10, value 5, candidate 20, three
iterated calls. -/
theorem relax_one_per_call_up_to_margin_witness :
    ((Margin.mk 10 (some 5)).set_min 20).1 = 5 + 1 ∧
    Margin.iterMin ⟨10, some 5⟩ 20 3 = ⟨10, some (min (5 + (3:Nat)) (20 - 10))⟩ :=
  have h := relax_one_per_call_up_to_margin 10 5 20 (by decide) (by decide)
  ⟨h.1, h.2 3⟩

/-- C9 -- with margin m > 0 and stored value v, repeated `set_min` calls
with a fixed candidate c > v + m raise the stored value by exactly 1 per
call until it equals c - m; from the point `n ≥ c - m - v` on, the value is
pinned at c - m, which is strictly below c (the value never reaches the
candidate); and the states fixed by `set_min` with candidate c are exactly
the values w with c - m ≤ w ≤ c. -/
theorem set_min_stabilizes_at_margin_below (m v c : Int)
    (hm : 0 < m) (h : c > v + m) :
    (∀ n : Nat, (Margin.iterMin ⟨m, some v⟩ c n).value = some (min (v + n) (c - m))) ∧
    (∀ n : Nat, c - m - v ≤ (n:Int) → (Margin.iterMin ⟨m, some v⟩ c n).value = some (c - m)) ∧
    c - m < c ∧
    (∀ w : Int, ((Margin.mk m (some w)).set_min c).2 = ⟨m, some w⟩ ↔ c - m ≤ w ∧ w ≤ c) := by
  have hcf := iterMin_closed_form m v c (le_of_lt hm) h
  refine ⟨fun n => by rw [hcf n], fun n hn => ?_, by omega, fun w => ?_⟩
  · rw [hcf n]
    simp only [Margin.mk.injEq, Option.some.injEq]
    omega
  · simp only [Margin.set_min, Margin.mk.injEq, Option.some.injEq, true_and]
    split_ifs <;> omega

/-- Witness for C9 at margin 10, value 5, candidate 20: value after 2 calls
is 7, after 7 calls it is pinned at 10 = 20 - 10 < 20, and 12 is a fixed
point of `set_min` with candidate 20. -/
theorem set_min_stabilizes_at_margin_below_witness :
    (Margin.iterMin ⟨10, some 5⟩ 20 2).value = some (min (5 + (2:Nat)) (20 - 10)) ∧
    (Margin.iterMin ⟨10, some 5⟩ 20 7).value = some (20 - 10) ∧
    (20:Int) - 10 < 20 ∧
    (((Margin.mk 10 (some 12)).set_min 20).2 = ⟨10, some 12⟩ ↔
      (20:Int) - 10 ≤ 12 ∧ (12:Int) ≤ 20) :=
  have h := set_min_stabilizes_at_margin_below 10 5 20 (by decide) (by decide)
  ⟨h.1 2, h.2.1 7 (by decide), h.2.2.1, h.2.2.2 12⟩

/-- C5 -- on the very first call (a frame fresh from `MarginFrame` creation,
all four `Margin` values still absent), `MarginFrame.set` returns exactly
the tight bounding box of the cell set: the true minimum x and y and the
true maximum x and y plus one.  The hypotheses pin mx, my, Mx, My as the
results of the Python `min`/`max` calls; the conclusion shows these are the
true extrema (lower/upper bounds attained by list elements) and that the
returned rectangle is (mx, my, Mx + 1, My + 1) with no damping applied. -/
theorem first_set_is_tight_bbox (margin : Int) (dots : List (Int × Int))
    (mx my Mx My : Int)
    (hmx : pyMin (dots.map Prod.fst) = some mx)
    (hmy : pyMin (dots.map Prod.snd) = some my)
    (hMx : pyMax (dots.map Prod.fst) = some Mx)
    (hMy : pyMax (dots.map Prod.snd) = some My) :
    (∀ x ∈ dots.map Prod.fst, mx ≤ x) ∧ mx ∈ dots.map Prod.fst ∧
    (∀ y ∈ dots.map Prod.snd, my ≤ y) ∧ my ∈ dots.map Prod.snd ∧
    (∀ x ∈ dots.map Prod.fst, x ≤ Mx) ∧ Mx ∈ dots.map Prod.fst ∧
    (∀ y ∈ dots.map Prod.snd, y ≤ My) ∧ My ∈ dots.map Prod.snd ∧
    (MarginFrame.mkInit margin).set dots =
      Except.ok ((mx, my, Mx + 1, My + 1),
        ⟨⟨margin, some mx⟩, ⟨margin, some my⟩,
         ⟨margin, some (Mx + 1)⟩, ⟨margin, some (My + 1)⟩⟩) := by
  refine ⟨pyMin_le _ _ hmx, pyMin_mem _ _ hmx, pyMin_le _ _ hmy, pyMin_mem _ _ hmy,
    pyMax_ge _ _ hMx, pyMax_mem _ _ hMx, pyMax_ge _ _ hMy, pyMax_mem _ _ hMy, ?_⟩
  rw [MarginFrame.set, hmx, hmy, hMx, hMy]
  rfl

/-- Witness for C5: a fresh frame with margin 10 on cells (0,0), (3,4)
returns exactly the tight box (0, 0, 4, 5). -/
theorem first_set_is_tight_bbox_witness :
    (MarginFrame.mkInit 10).set [((0:Int), (0:Int)), (3, 4)] =
      Except.ok ((0, 0, 3 + 1, 4 + 1),
        ⟨⟨10, some 0⟩, ⟨10, some 0⟩, ⟨10, some (3 + 1)⟩, ⟨10, some (4 + 1)⟩⟩) :=
  (first_set_is_tight_bbox 10 [((0:Int), (0:Int)), (3, 4)] 0 0 3 4
    (by decide) (by decide) (by decide) (by decide)).2.2.2.2.2.2.2.2

/-- Negate the stored value of a bound, keeping the margin (used only to
state the min/max mirror relation). -/
def Margin.negValue (s : Margin) : Margin :=
  ⟨s.margin, s.value.map (fun v => -v)⟩

/-- C6 -- `set_max` obeys exactly the mirror of the min law (absent value
or higher candidate snaps to the candidate, a candidate below
value - margin relaxes the value by one downward, otherwise unchanged), and
`set_max` on value v with candidate c is the pointwise negation of
`set_min` on value -v with candidate -c. -/
theorem set_max_mirror_of_set_min (m c : Int) (v : Option Int)
    (s : Margin) (d : Int) :
    ((v = none → Margin.set_max ⟨m, v⟩ c = (c, ⟨m, some c⟩)) ∧
     (∀ w, v = some w → c > w → Margin.set_max ⟨m, v⟩ c = (c, ⟨m, some c⟩)) ∧
     (∀ w, v = some w → ¬ c > w → c < w - m →
       Margin.set_max ⟨m, v⟩ c = (w - 1, ⟨m, some (w - 1)⟩)) ∧
     (∀ w, v = some w → ¬ c > w → ¬ c < w - m →
       Margin.set_max ⟨m, v⟩ c = (w, ⟨m, some w⟩))) ∧
    (s.set_max d).1 = -((s.negValue.set_min (-d)).1) ∧
    (s.set_max d).2 = ((s.negValue.set_min (-d)).2).negValue := by
  refine ⟨⟨?_, ?_, ?_, ?_⟩, ?_, ?_⟩
  · rintro rfl; rfl
  · rintro w rfl hgt
    simp [Margin.set_max, if_pos hgt]
  · rintro w rfl hgt hlt
    simp [Margin.set_max, if_neg hgt, if_pos hlt]
  · rintro w rfl hgt hlt
    simp [Margin.set_max, if_neg hgt, if_neg hlt]
  · obtain ⟨m2, v2⟩ := s
    cases v2 with
    | none => simp [Margin.set_max, Margin.set_min, Margin.negValue]
    | some w =>
      simp only [Margin.set_max, Margin.set_min, Margin.negValue, Option.map]
      split_ifs <;> omega
  · obtain ⟨m2, v2⟩ := s
    cases v2 with
    | none => simp [Margin.set_max, Margin.set_min, Margin.negValue]
    | some w =>
      simp only [Margin.set_max, Margin.set_min, Margin.negValue, Option.map,
        Margin.mk.injEq, Option.some.injEq, true_and]
      split_ifs <;> omega

/-- Witness for C6: margin 10 -- snap when absent, snap up to 9, relax 20
down to 19, absorb 0 against value 5; and the negation identity at value 5,
candidate 9. -/
theorem set_max_mirror_of_set_min_witness :
    Margin.set_max ⟨10, none⟩ 5 = (5, ⟨10, some 5⟩) ∧
    Margin.set_max ⟨10, some 5⟩ 9 = (9, ⟨10, some 9⟩) ∧
    Margin.set_max ⟨10, some 20⟩ 3 = (19, ⟨10, some 19⟩) ∧
    Margin.set_max ⟨10, some 5⟩ 0 = (5, ⟨10, some 5⟩) ∧
    ((Margin.mk 10 (some 5)).set_max 9).1 =
      -(((Margin.mk 10 (some 5)).negValue.set_min (-9)).1) :=
  ⟨((set_max_mirror_of_set_min 10 5 none ⟨10, none⟩ 0).1).1 rfl,
   ((set_max_mirror_of_set_min 10 9 (some 5) ⟨10, none⟩ 0).1).2.1 5 rfl (by decide),
   ((set_max_mirror_of_set_min 10 3 (some 20) ⟨10, none⟩ 0).1).2.2.1 20 rfl
     (by decide) (by decide),
   ((set_max_mirror_of_set_min 10 0 (some 5) ⟨10, none⟩ 0).1).2.2.2 5 rfl
     (by decide) (by decide),
   ((set_max_mirror_of_set_min 0 0 none (Margin.mk 10 (some 5)) 9).2).1⟩

/-- Run `MarginFrame.set` over a list of frames from a state, collecting the
rectangle of every successful call; a failing call leaves the state exactly
as it was (in Python the exception escapes before any mutation). -/
def MarginFrame.runRects (s : MarginFrame) : List (List (Int × Int)) → List Rect
  | [] => []
  | dots :: rest =>
    match s.set dots with
    | Except.ok (r, s2) => r :: s2.runRects rest
    | Except.error _ => s.runRects rest

/-- Invariant tying a min bound to the matching max bound: both margins are
non-negative, and the stored values are either both absent (fresh state) or
both present with the min strictly below the max. -/
def PairInv (lo hi : Margin) : Prop :=
  0 ≤ lo.margin ∧ 0 ≤ hi.margin ∧
  ((lo.value = none ∧ hi.value = none) ∨
   ∃ a b, lo.value = some a ∧ hi.value = some b ∧ a < b)

/-- One damped update preserves `PairInv` and keeps the returned min
strictly below the returned max, whenever the raw extents satisfy
`rlo < rhi` (which `MarginFrame.set` guarantees via the `+ 1`). -/
theorem pairInv_step (lo hi : Margin) (rlo rhi : Int)
    (hinv : PairInv lo hi) (hlt : rlo < rhi) :
    (lo.set_min rlo).1 < (hi.set_max rhi).1 ∧
    PairInv (lo.set_min rlo).2 (hi.set_max rhi).2 := by
  obtain ⟨hm1, hm2, hv⟩ := hinv
  obtain ⟨m1, v1⟩ := lo
  obtain ⟨m2, v2⟩ := hi
  simp only at hm1 hm2
  rcases hv with ⟨h1, h2⟩ | ⟨a, b, h1, h2, hab⟩ <;> simp only at h1 h2 <;>
      subst h1 <;> subst h2
  · exact ⟨hlt, hm1, hm2, Or.inr ⟨rlo, rhi, rfl, rfl, hlt⟩⟩
  · have hfst : ((Margin.mk m1 (some a)).set_min rlo).1 <
        ((Margin.mk m2 (some b)).set_max rhi).1 := by
      simp only [Margin.set_min, Margin.set_max]
      split_ifs <;> omega
    refine ⟨hfst, hm1, hm2, Or.inr ⟨_, _, rfl, rfl, ?_⟩⟩
    simp only [Margin.set_min, Margin.set_max]
    split_ifs <;> omega

/-- Invariant of a whole frame state: both axis pairs satisfy `PairInv`. -/
def FrameInv (s : MarginFrame) : Prop :=
  PairInv s.x_min s.x_max ∧ PairInv s.y_min s.y_max

/-- A successful `MarginFrame.set` from an invariant state returns a
non-degenerate rectangle and preserves the invariant. -/
theorem set_ok_step (s : MarginFrame) (dots : List (Int × Int)) (r : Rect)
    (s2 : MarginFrame) (hinv : FrameInv s)
    (hset : s.set dots = Except.ok (r, s2)) :
    (r.1 < r.2.2.1 ∧ r.2.1 < r.2.2.2) ∧ FrameInv s2 := by
  rw [MarginFrame.set] at hset
  split at hset
  next mx my Mx My hmx hmy hMx hMy =>
    have hx : mx ≤ Mx := pyMax_ge _ _ hMx mx (pyMin_mem _ _ hmx)
    have hy : my ≤ My := pyMax_ge _ _ hMy my (pyMin_mem _ _ hmy)
    obtain ⟨hpx, hpy⟩ := hinv
    have Hx := pairInv_step s.x_min s.x_max mx (Mx + 1) hpx (by omega)
    have Hy := pairInv_step s.y_min s.y_max my (My + 1) hpy (by omega)
    simp only [Except.ok.injEq, Prod.mk.injEq] at hset
    obtain ⟨hr, hs2⟩ := hset
    subst hr; subst hs2
    exact ⟨⟨Hx.1, Hy.1⟩, Hx.2, Hy.2⟩
  next => cases hset

/-- Every rectangle produced by a run from an invariant state is
non-degenerate. -/
theorem runRects_sound (frames : List (List (Int × Int))) (s : MarginFrame)
    (hinv : FrameInv s) :
    ∀ r ∈ s.runRects frames, r.1 < r.2.2.1 ∧ r.2.1 < r.2.2.2 := by
  induction frames generalizing s with
  | nil => intro r hr; cases hr
  | cons dots rest ih =>
    intro r hr
    rw [MarginFrame.runRects] at hr
    split at hr
    next r2 s2 hset =>
      rcases List.mem_cons.mp hr with rfl | hr
      · exact (set_ok_step s dots r s2 hinv hset).1
      · exact ih s2 (set_ok_step s dots r2 s2 hinv hset).2 r hr
    next => exact ih s hinv r hr

/-- C7 -- in any run of `MarginFrame.set` calls starting from a freshly
constructed frame with non-negative margin (the program uses 10), every
rectangle returned by a successful call satisfies `x_max > x_min` and
`y_max > y_min` -- from the first successful call on. -/
theorem returned_rects_nondegenerate (margin : Int)
    (frames : List (List (Int × Int))) (r : Rect) (hm : 0 ≤ margin)
    (hr : r ∈ (MarginFrame.mkInit margin).runRects frames) :
    r.1 < r.2.2.1 ∧ r.2.1 < r.2.2.2 := by
  have hinv : FrameInv (MarginFrame.mkInit margin) :=
    ⟨⟨hm, hm, Or.inl ⟨rfl, rfl⟩⟩, ⟨hm, hm, Or.inl ⟨rfl, rfl⟩⟩⟩
  exact runRects_sound frames _ hinv r hr

/-- Witness for C7: a one-frame run from a fresh margin-10 frame on cells
(0,0), (3,4) returns the rectangle (0,0,4,5), whose sides are positive. -/
theorem returned_rects_nondegenerate_witness :
    (((0:Int), (0:Int), (4:Int), (5:Int)) ∈
      (MarginFrame.mkInit 10).runRects [[((0:Int), (0:Int)), (3, 4)]]) ∧
    ((0:Int) < 4 ∧ (0:Int) < 5) :=
  ⟨by decide,
   returned_rects_nondegenerate 10 [[((0:Int), (0:Int)), (3, 4)]] (0, 0, 4, 5)
     (by decide) (by decide)⟩

/-- Embeds the viewport computations of `LifeDisplayAndGenerateImages.draw`
for one frame: `super().draw(dots)` calls `self.margin_frame.set(dots)` once
and draws the screen with that rectangle; `draw` then calls
`self.margin_frame.set(dots)` a second time and draws the offscreen image
with the rectangle of that second call.  Result: (screen rectangle,
offscreen-image rectangle, final tracker state). -/
def drawPairRects (s : MarginFrame) (dots : List (Int × Int)) :
    Except Err (Rect × Rect × MarginFrame) :=
  match s.set dots with
  | Except.error e => Except.error e
  | Except.ok (screenRect, s1) =>
    match s1.set dots with
    | Except.error e => Except.error e
    | Except.ok (imageRect, s2) => Except.ok (screenRect, imageRect, s2)

/-- C8 evidence -- `LifeDisplayAndGenerateImages.draw` advances the tracker
twice per frame, and the two advances can disagree: with margin 10, a first
frame on the single cell (5,5) still yields the same rectangle (5,5,6,6)
for screen and image, but the next frame on the single cell (20,5) draws
the screen with rectangle (6,5,21,6) and the offscreen image with
(7,5,21,6) -- the recorded frame does not match the displayed one. -/
theorem draw_screen_image_rects_differ :
    drawPairRects (MarginFrame.mkInit 10) [((5:Int), (5:Int))] =
      Except.ok ((5, 5, 6, 6), (5, 5, 6, 6),
        ⟨⟨10, some 5⟩, ⟨10, some 5⟩, ⟨10, some 6⟩, ⟨10, some 6⟩⟩) ∧
    drawPairRects ⟨⟨10, some 5⟩, ⟨10, some 5⟩, ⟨10, some 6⟩, ⟨10, some 6⟩⟩
        [((20:Int), (5:Int))] =
      Except.ok ((6, 5, 21, 6), (7, 5, 21, 6),
        ⟨⟨10, some 7⟩, ⟨10, some 5⟩, ⟨10, some 21⟩, ⟨10, some 6⟩⟩) ∧
    ¬ ((6, 5, 21, 6) : Rect) = ((7, 5, 21, 6) : Rect) :=
  ⟨rfl, rfl, by decide⟩

/-- Modelled scale computation of `LifeDisplay.draw` (the identical formula
is repeated in `LifeDisplayAndGenerateImages.draw`):
`cell_size = min(width / (x_max - x_min), height / (y_max - y_min))`, with
exact rational division standing for Python float division. -/
def cell_size (width height x_min y_min x_max y_max : Int) : ℚ :=
  min ((width : ℚ) / ((x_max : ℚ) - (x_min : ℚ)))
      ((height : ℚ) / ((y_max : ℚ) - (y_min : ℚ)))

/-- Python `int()` on a rational: truncation toward zero. -/
def pyTrunc (c : ℚ) : Int := if 0 ≤ c then ⌊c⌋ else -⌊-c⌋

/-- The drawn square side of `LifeDisplay.draw`:
`int(cell_size) if cell_size > 1.0 else 1`. -/
def drawnSide (c : ℚ) : Int := if c > 1 then pyTrunc c else 1

/-- C10 -- for a viewport with `x_max > x_min`, `y_max > y_min` and a
positive canvas, the cell size of `LifeDisplay.draw` is positive and the
drawn square side equals `max 1 (truncate cell_size)`; in general, for
every positive cell size the side is `max 1 (truncate c)` and never zero. -/
theorem drawn_side_is_max_one_trunc (w h x0 y0 x1 y1 : Int)
    (hw : 0 < w) (hh : 0 < h) (hx : x0 < x1) (hy : y0 < y1) :
    (0 < cell_size w h x0 y0 x1 y1 ∧
     drawnSide (cell_size w h x0 y0 x1 y1) =
       max 1 (pyTrunc (cell_size w h x0 y0 x1 y1)) ∧
     0 < drawnSide (cell_size w h x0 y0 x1 y1)) ∧
    ∀ c : ℚ, 0 < c → drawnSide c = max 1 (pyTrunc c) ∧ 0 < drawnSide c := by
  have hgen : ∀ c : ℚ, 0 < c → drawnSide c = max 1 (pyTrunc c) ∧ 0 < drawnSide c := by
    intro c hc
    have htr : pyTrunc c = ⌊c⌋ := if_pos (le_of_lt hc)
    rw [drawnSide, htr]
    split_ifs with h1
    · have hfl : (1:Int) ≤ ⌊c⌋ := by
        rw [Int.le_floor]
        exact_mod_cast le_of_lt h1
      exact ⟨(max_eq_right hfl).symm, by omega⟩
    · have h2 : (⌊c⌋ : ℚ) ≤ 1 := le_trans (Int.floor_le c) (not_lt.mp h1)
      have hfl : ⌊c⌋ ≤ 1 := by exact_mod_cast h2
      exact ⟨(max_eq_left hfl).symm, by omega⟩
  have hxq : (x0 : ℚ) < (x1 : ℚ) := by exact_mod_cast hx
  have hyq : (y0 : ℚ) < (y1 : ℚ) := by exact_mod_cast hy
  have hpos : 0 < cell_size w h x0 y0 x1 y1 := by
    rw [cell_size]
    apply lt_min
    · exact div_pos (by exact_mod_cast hw) (by linarith)
    · exact div_pos (by exact_mod_cast hh) (by linarith)
  exact ⟨⟨hpos, (hgen _ hpos).1, (hgen _ hpos).2⟩, hgen⟩

/-- Witness for C10: the spec's mapping scenario -- viewport (0,0,4,5) on a
canvas 800 by 450 gives cell size min(200, 90) = 90 and side length 90. -/
theorem drawn_side_is_max_one_trunc_witness :
    cell_size 800 450 0 0 4 5 = 90 ∧
    (0 < cell_size 800 450 0 0 4 5 ∧
     drawnSide (cell_size 800 450 0 0 4 5) =
       max 1 (pyTrunc (cell_size 800 450 0 0 4 5)) ∧
     0 < drawnSide (cell_size 800 450 0 0 4 5)) :=
  ⟨by norm_num [cell_size, min_def],
   (drawn_side_is_max_one_trunc 800 450 0 0 4 5
     (by decide) (by decide) (by decide) (by decide)).1⟩
